import Mathlib

/-!
# Verification of the Passenger nginx helper server core

A shallow embedding of `src/ext/nginx/HelperServer.cpp`: the connection
broker that authenticates framed requests from nginx, checks out a backend
session from the application pool, streams the request body, and rewrites
the backend response into an HTTP/1.1 response.

Bytes are modelled as `Nat`, byte streams as `List Nat`.  A client (or
backend) connection is a `Conn`: the byte stream remaining on the socket
plus an adversarial schedule deciding how many bytes each `read` call may
return, so that theorems hold for every chunking of the stream.

Components whose code is not part of the repository snapshot
(`MessageChannel`, `ScgiRequestParser`, `HttpStatusExtractor`) are
modelled from the specification; their definitions carry a
`Modelled from the spec:` note.
-/

namespace HelperServer

/-- Byte string of an ASCII string literal. -/
def strBytes (s : String) : List Nat :=
  s.data.map Char.toNat

/-- `HELPER_SERVER_PASSWORD_SIZE` from HelperServer.cpp. -/
def PASSWORD_SIZE : Nat := 64

/-- `2^64`, the modulus of C's `unsigned long` on LP64 platforms. -/
def U64 : Nat := 2 ^ 64

/-- `2^32`, the modulus of C's `unsigned int`. -/
def U32 : Nat := 2 ^ 32

/-- Subtraction of `unsigned long` values (both `< U64`), wrapping
modulo `2^64` as C does. -/
def ulongSub (a b : Nat) : Nat :=
  (a + U64 - b) % U64

/-- One side of a socket: the bytes still readable from it, plus a
schedule deciding how many bytes the kernel hands out per `read` call
(each entry `k` makes `k+1` bytes available, so a blocking read on a
non-empty stream always returns at least one byte, exactly as POSIX
`read` on a stream socket). -/
structure Conn where
  bytes : List Nat
  sched : List Nat
  deriving Repr, DecidableEq

/-- `syscalls::read(fd, buf, n)` on a stream socket: returns between 1
and `n` of the next bytes when data is available, and 0 bytes (EOF)
when the stream is exhausted. -/
def readConn (c : Conn) (n : Nat) : List Nat × Conn :=
  let m := min n (min (c.sched.headD 0 + 1) c.bytes.length)
  (c.bytes.take m, ⟨c.bytes.drop m, c.sched.tail⟩)

/-- Modelled from the spec: `MessageChannel::readRaw(buf, n)` (the
MessageChannel class is not part of this repository snapshot).  Reads
from the connection until exactly `n` bytes have been gathered;
returns `none` when EOF is reached first.  The fuel argument bounds
the number of `read` calls; since every successful read returns at
least one byte, fuel `n` always suffices. -/
def readRawFuel : Nat → Nat → Conn → Option (List Nat × Conn)
  | _, 0, c => some ([], c)
  | 0, _ + 1, _ => none
  | fuel + 1, n + 1, c =>
    let r := readConn c (n + 1)
    if r.1 = [] then
      none
    else
      (readRawFuel fuel (n + 1 - r.1.length) r.2).map fun p => (r.1 ++ p.1, p.2)

/-- `MessageChannel::readRaw` with sufficient fuel. -/
def readRaw (n : Nat) (c : Conn) : Option (List Nat × Conn) :=
  readRawFuel n n c

/-- C `memcmp(a, b, |a|)` restricted to what the helper server needs:
returns the number of byte comparisons performed (the scan stops at
the first mismatching byte) and whether the compared regions were
equal. -/
def memcmpRun : List Nat → List Nat → Nat × Bool
  | [], _ => (0, true)
  | _ :: _, [] => (0, true)
  | a :: as, b :: bs =>
    if a = b then
      let r := memcmpRun as bs
      (r.1 + 1, r.2)
    else
      (1, false)

/-- Length of the longest common prefix of two byte strings. -/
def commonPrefixLen : List Nat → List Nat → Nat
  | a :: as, b :: bs => if a = b then commonPrefixLen as bs + 1 else 0
  | _, _ => 0

/-- `Client::readAndCheckPassword`: read exactly
`HELPER_SERVER_PASSWORD_SIZE` bytes from the client and compare them
with `memcmp` against the server password.  Returns `false` on EOF. -/
def readAndCheckPassword (secret : List Nat) (c : Conn) : Bool × Conn :=
  match readRaw PASSWORD_SIZE c with
  | none => (false, c)
  | some (buf, c') => ((memcmpRun secret buf).2, c')

/-- States of the SCGI request parser (spec §4.2). -/
inductive ScgiState where
  | READ_LENGTH
  | READ_HEADER
  | EXPECT_COMMA
  | DONE
  | ERROR
  deriving Repr, DecidableEq

/-- Modelled from the spec: the state of `ScgiRequestParser` (the class
is declared in ScgiRequestParser.h, which is not part of this
repository snapshot).  `consumedTotal` counts every byte the parser
has ever consumed, across all `feed` calls. -/
structure ScgiParser where
  state : ScgiState
  lengthAcc : Nat
  lengthDigits : Nat
  remaining : Nat
  headerData : List Nat
  consumedTotal : Nat
  deriving Repr, DecidableEq

/-- A freshly constructed `ScgiRequestParser`. -/
def ScgiParser.init : ScgiParser :=
  ⟨.READ_LENGTH, 0, 0, 0, [], 0⟩

/-- `ScgiRequestParser::acceptingInput()`: true in every non-terminal
state. -/
def ScgiParser.acceptingInput (p : ScgiParser) : Bool :=
  p.state ≠ .DONE && p.state ≠ .ERROR

/-- Modelled from the spec: one byte of `ScgiRequestParser::feed`.
`READ_LENGTH` accumulates a canonical decimal (no leading zeros,
at most 128 KiB) until `':'`; `READ_HEADER` buffers exactly that many
bytes; `EXPECT_COMMA` demands `','` and moves to `DONE`. -/
def ScgiParser.feedByte (p : ScgiParser) (b : Nat) : ScgiParser :=
  let p := { p with consumedTotal := p.consumedTotal + 1 }
  match p.state with
  | .READ_LENGTH =>
    if 48 ≤ b ∧ b ≤ 57 then
      if 0 < p.lengthDigits ∧ p.lengthAcc = 0 then
        { p with state := .ERROR }
      else
        let n := p.lengthAcc * 10 + (b - 48)
        if n > 131072 then
          { p with state := .ERROR }
        else
          { p with lengthAcc := n, lengthDigits := p.lengthDigits + 1 }
    else if b = 58 then
      if p.lengthDigits = 0 then
        { p with state := .ERROR }
      else if p.lengthAcc = 0 then
        { p with state := .EXPECT_COMMA }
      else
        { p with state := .READ_HEADER, remaining := p.lengthAcc }
    else
      { p with state := .ERROR }
  | .READ_HEADER =>
    let p := { p with headerData := p.headerData ++ [b], remaining := p.remaining - 1 }
    if p.remaining = 0 then { p with state := .EXPECT_COMMA } else p
  | .EXPECT_COMMA =>
    if b = 44 then { p with state := .DONE } else { p with state := .ERROR }
  | .DONE => p
  | .ERROR => p

/-- Modelled from the spec: `ScgiRequestParser::feed(buf, size)`.
Consumes bytes of `buf` one at a time while the parser accepts input;
returns the new parser state together with the number of bytes
consumed from `buf`. -/
def ScgiParser.feed (p : ScgiParser) : List Nat → ScgiParser × Nat
  | [] => (p, 0)
  | b :: rest =>
    if p.acceptingInput then
      let r := (p.feedByte b).feed rest
      (r.1, r.2 + 1)
    else
      (p, 0)

/-- Split a byte string at every NUL byte. -/
def splitNul : List Nat → List (List Nat)
  | [] => [[]]
  | 0 :: rest => [] :: splitNul rest
  | b :: rest =>
    match splitNul rest with
    | [] => [[b]]
    | l :: ls => (b :: l) :: ls

/-- Pair up the NUL-separated tokens of the header blob into
key/value pairs. -/
def headerPairs : List (List Nat) → List (List Nat × List Nat)
  | k :: v :: rest => (k, v) :: headerPairs rest
  | _ => []

/-- `ScgiRequestParser::getHeader(name)`: value of the first
occurrence of `name` in the header blob, empty when absent. -/
def ScgiParser.getHeader (p : ScgiParser) (name : List Nat) : List Nat :=
  match (headerPairs (splitNul p.headerData)).find? (fun kv => kv.1 = name) with
  | some kv => kv.2
  | none => []

/-- `ScgiRequestParser::hasHeader(name)`. -/
def ScgiParser.hasHeader (p : ScgiParser) (name : List Nat) : Bool :=
  (headerPairs (splitNul p.headerData)).any (fun kv => kv.1 = name)

/-- Result of the read/feed loop of
`Client::readAndParseRequestHeaders`: final parser, remaining
connection, concatenation of all bytes read, and the last chunk read
together with how many of its bytes the final `feed` consumed
(the local variables `buf`/`size`/`accepted` of the C++ loop). -/
structure ParseOutcome where
  parser : ScgiParser
  conn : Conn
  readBytes : List Nat
  lastChunk : List Nat
  lastConsumed : Nat
  deriving Repr, DecidableEq

/-- The `do { read; feed } while (acceptingInput)` loop of
`Client::readAndParseRequestHeaders`, reading into a 16 KiB buffer.
Fuel bounds the number of iterations; every iteration either consumes
at least one byte of the connection or terminates the loop, so
`c.bytes.length + 1` fuel always suffices. -/
def parseLoop : Nat → ScgiParser → Conn → List Nat → List Nat × Nat → ParseOutcome
  | 0, p, c, readB, last => ⟨p, c, readB, last.1, last.2⟩
  | fuel + 1, p, c, readB, last =>
    let r := readConn c 16384
    if r.1 = [] then
      ⟨p, r.2, readB, last.1, last.2⟩
    else
      let f := p.feed r.1
      if f.1.acceptingInput then
        parseLoop fuel f.1 r.2 (readB ++ r.1) (r.1, f.2)
      else
        ⟨f.1, r.2, readB ++ r.1, r.1, f.2⟩

/-- The header blob key `DOCUMENT_ROOT`. -/
def docRootKey : List Nat := strBytes ("DOCUMENT_ROOT")

/-- `Client::readAndParseRequestHeaders`: run the parse loop, then
require state `DONE` and a `DOCUMENT_ROOT` header; on success the
untouched tail of the last read becomes the partial request body
(`requestBody.assign(buf + accepted, size - accepted)`). -/
def readAndParseRequestHeaders (c : Conn) : Bool × List Nat × ParseOutcome :=
  let po := parseLoop (c.bytes.length + 1) ScgiParser.init c [] ([], 0)
  if po.parser.state = .DONE then
    if po.parser.hasHeader docRootKey then
      (true, po.lastChunk.drop po.lastConsumed, po)
    else
      (false, [], po)
  else
    (false, [], po)

/-- Digit run of C `atol`: accumulate decimal digits, stopping at the
first non-digit. -/
def parseDigits : List Nat → Nat → Nat
  | b :: rest, acc =>
    if 48 ≤ b ∧ b ≤ 57 then parseDigits rest (acc * 10 + (b - 48)) else acc
  | [], acc => acc

/-- C `atol` on a byte string: skip leading whitespace, read an
optional sign and then decimal digits; 0 when no digits are present,
so an absent or invalid `CONTENT_LENGTH` yields 0. -/
def atolBytes (s : List Nat) : Int :=
  let s := s.dropWhile (fun b => b = 32 ∨ (9 ≤ b ∧ b ≤ 13))
  match s with
  | 45 :: rest => -(parseDigits rest 0 : Int)
  | 43 :: rest => (parseDigits rest 0 : Int)
  | _ => (parseDigits s 0 : Int)

/-- Conversion of the `long` returned by `atol` to the
`unsigned long` parameter `contentLength` of
`Client::sendRequestBody`. -/
def toULong (i : Int) : Nat :=
  (i % (U64 : Int)).toNat

/-- The `while (!done)` loop of `Client::sendRequestBody`.  `cl` and
`bf` are the `unsigned long` values `contentLength` and
`bytesForwarded` (both `< U64`); `bytesToRead` is computed with
wrapping unsigned subtraction, capped at the 16 KiB buffer size,
exactly as the C++ does.  Returns the bytes passed to
`session->sendBodyBlock` by the loop.  Fuel bounds the iterations;
every iteration reads at least one byte or terminates, so
`c.bytes.length + 1` always suffices. -/
def sendLoop : Nat → Nat → Nat → Conn → List Nat
  | 0, _, _, _ => []
  | fuel + 1, cl, bf, c =>
    if bf = cl then
      []
    else
      let bytesToRead := min (ulongSub cl bf) 16384
      let r := readConn c bytesToRead
      if r.1 = [] then
        []
      else
        r.1 ++ sendLoop fuel cl ((bf + r.1.length) % U64) r.2

/-- `Client::sendRequestBody`: first forward the partial request body
captured while parsing the headers, then keep reading from the client
and forwarding until `bytesForwarded == contentLength` or client EOF.
Returns the byte sequence delivered to the backend session. -/
def sendRequestBody (contentLength : Nat) (partialBody : List Nat) (c : Conn) : List Nat :=
  let cl := contentLength % U64
  let bf := partialBody.length % U64
  partialBody ++ sendLoop (c.bytes.length + 1) cl bf c

/-- Split off the first CRLF-terminated line of a byte string:
`some (line, rest)` when a CRLF is present, `none` otherwise. -/
def takeLine : List Nat → Option (List Nat × List Nat)
  | [] => none
  | [_] => none
  | b :: b' :: rest =>
    if b = 13 ∧ b' = 10 then
      some ([], rest)
    else
      (takeLine (b' :: rest)).map fun p => (b :: p.1, p.2)

/-- The key prefix the status extractor scans for. -/
def statusKey : List Nat := strBytes ("Status: ")

/-- The default status line used when the header block ends without a
`Status` header. -/
def defaultStatus : List Nat := strBytes ("200 OK")

/-- Fuel-bounded core of `extractStatus`: examine the complete
CRLF-terminated lines in order.  Since every recursion removes a line
and its CRLF, fuel `bytes.length` always suffices. -/
def extractGo : Nat → List Nat → Option (List Nat)
  | 0, _ => none
  | fuel + 1, bytes =>
    match takeLine bytes with
    | none => none
    | some (line, rest) =>
      if line = [] then
        some defaultStatus
      else if statusKey.isPrefixOf line then
        some (line.drop statusKey.length)
      else
        extractGo fuel rest

/-- Modelled from the spec: the scan performed by
`HttpStatusExtractor` (HttpStatusExtractor.h is not part of this
repository snapshot) on the bytes received so far.  Complete
CRLF-terminated lines are examined in order: a `Status: ` header
yields its value, an empty line (end of the header block) yields the
default `200 OK`, and with no complete deciding line the extractor is
not done yet. -/
def extractStatus (bytes : List Nat) : Option (List Nat) :=
  extractGo bytes.length bytes

/-- The first loop of `Client::forwardResponse`: read the backend
stream in 32 KiB chunks, feeding every chunk to the status extractor
(whose buffer is the accumulated byte list), until the extractor
reports that a status line is available.  Returns the extractor
buffer at that point and the rest of the stream; `none` when the
stream ends first. -/
def statusPhase : Nat → List Nat → Conn → Option (List Nat × Conn)
  | 0, _, _ => none
  | fuel + 1, buffer, c =>
    let r := readConn c 32768
    if r.1 = [] then
      none
    else
      let buffer' := buffer ++ r.1
      if (extractStatus buffer').isSome then
        some (buffer', r.2)
      else
        statusPhase fuel buffer' r.2

/-- The second loop of `Client::forwardResponse`: pump the remaining
backend bytes to the client verbatim, in 32 KiB chunks, until EOF. -/
def pumpLoop : Nat → Conn → List Nat
  | 0, _ => []
  | fuel + 1, c =>
    let r := readConn c 32768
    if r.1 = [] then [] else r.1 ++ pumpLoop fuel r.2

/-- `Client::forwardResponse`: once a status line is available, write
`"HTTP/1.1 "` followed by `HttpStatusExtractor::getStatusLine()` (the
status line, CRLF included) and the extractor's buffered bytes, then
forward the remaining backend bytes verbatim.  Returns the bytes
written to the client; nothing is written when the backend stream
ends before a status line is found. -/
def forwardResponse (session : Conn) : List Nat :=
  match statusPhase (session.bytes.length + 1) [] session with
  | none => []
  | some (buffer, rest) =>
    strBytes ("HTTP/1.1 ") ++ ((extractStatus buffer).getD defaultStatus ++ [13, 10])
      ++ buffer ++ pumpLoop (rest.bytes.length + 1) rest

/-- A pool spawn failure: the text of `what()` (a NUL-free C string)
and, optionally, a preformatted HTML error page. -/
structure SpawnException where
  message : List Nat
  errorPage : Option (List Nat)
  deriving Repr, DecidableEq

/-- `SpawnException::hasErrorPage()`. -/
def SpawnException.hasErrorPage (e : SpawnException) : Bool :=
  e.errorPage.isSome

/-- `SpawnException::getErrorPage()`. -/
def SpawnException.getErrorPage (e : SpawnException) : List Nat :=
  e.errorPage.getD []

/-- `Client::handleSpawnException`: the sequence of
`channel.writeRaw` calls, in program order, that build the 500
response.  Modelled from the spec as far as `MessageChannel::writeRaw`
is concerned (it writes its argument bytes verbatim). -/
def handleSpawnException (e : SpawnException) : List Nat :=
  strBytes ("HTTP/1.1 500 Internal Server Error\r\n")
    ++ strBytes ("Status: 500 Internal Server Error\r\n")
    ++ strBytes ("Connection: close\r\n")
    ++ strBytes ("Content-Type: text/html; charset=utf-8\r\n")
    ++ (if e.hasErrorPage then
          strBytes ("Content-Length: ") ++ strBytes (toString e.getErrorPage.length)
            ++ strBytes ("\r\n") ++ strBytes ("\r\n") ++ e.getErrorPage
        else
          strBytes ("Content-Length: ") ++ strBytes (toString e.message.length)
            ++ strBytes ("\r\n") ++ strBytes ("\r\n") ++ e.message)

/-- The header blob key `CONTENT_LENGTH`. -/
def contentLengthKey : List Nat := strBytes ("CONTENT_LENGTH")

/-- What `pool->get(options)` does for this request: either a session
is checked out, or a `SpawnException` is raised. -/
inductive PoolBehavior where
  | session
  | spawnFailure (e : SpawnException)
  deriving Repr, DecidableEq

/-- Observable result of `Client::handleRequest` on one connection.
`retVal` is the boolean the C++ function returns; returning at all
(rather than re-raising a cancellation) is what the specification
calls `Completed`, after which the worker's RAII `FileDescriptor`
closes the connection. -/
structure HandleResult where
  authOk : Bool
  parseOk : Bool
  checkoutCalled : Bool
  partialBody : List Nat
  parseReadBytes : List Nat
  parserConsumed : Nat
  sessionHeaders : List Nat
  sessionBody : List Nat
  writerShutdown : Bool
  clientWrites : List Nat
  retVal : Bool
  deriving Repr, DecidableEq

/-- The `HandleResult` of a request rejected before the pool is
touched (failed authentication or failed header parsing). -/
def rejectedResult (authOk : Bool) : HandleResult :=
  ⟨authOk, false, false, [], [], 0, [], [], false, [], true⟩

/-- `Client::handleRequest`: authenticate, parse the SCGI frame,
check out a session (`pool` describes the pool's behavior), send the
raw header blob and the request body, half-close, and forward the
backend response (`session` is the backend's response stream). -/
def handleRequest (secret : List Nat) (pool : PoolBehavior) (session : Conn)
    (c : Conn) : HandleResult :=
  let auth := readAndCheckPassword secret c
  if auth.1 then
    let pr := readAndParseRequestHeaders auth.2
    let po := pr.2.2
    if pr.1 then
      match pool with
      | .spawnFailure e =>
        { authOk := true, parseOk := true
          checkoutCalled := true, partialBody := pr.2.1
          parseReadBytes := po.readBytes, parserConsumed := po.parser.consumedTotal
          sessionHeaders := [], sessionBody := [], writerShutdown := false
          clientWrites := handleSpawnException e, retVal := false }
      | .session =>
        let contentLength := toULong (atolBytes (po.parser.getHeader contentLengthKey))
        let body := sendRequestBody contentLength pr.2.1 po.conn
        { authOk := true, parseOk := true
          checkoutCalled := true, partialBody := pr.2.1
          parseReadBytes := po.readBytes, parserConsumed := po.parser.consumedTotal
          sessionHeaders := po.parser.headerData, sessionBody := body
          writerShutdown := true, clientWrites := forwardResponse session, retVal := false }
    else
      rejectedResult true
  else
    rejectedResult false

/-- Environment of `Server::startListening`: the outcome the kernel
gives each system call (`socket`, `bind`, `listen`, `chmod`). -/
structure ListenEnv where
  socketFd : Option Nat
  bindOk : Bool
  listenOk : Bool
  chmodOk : Bool
  deriving Repr, DecidableEq

/-- `BACKLOG_SIZE` from HelperServer.cpp. -/
def BACKLOG_SIZE : Nat := 50

/-- `S_ISVTX | S_IRWXU | S_IRWXG | S_IRWXO` = `0777` plus the sticky
bit, i.e. octal `1777`. -/
def SOCKET_MODE : Nat := 0o1777

/-- Observable result of a successful `Server::startListening`:
the socket path bound, the `listen` backlog, and the mode passed to
`chmod` (whose return value the code discards). -/
structure ListenResult where
  path : String
  backlog : Nat
  chmodMode : Nat
  chmodSucceeded : Bool
  deriving Repr, DecidableEq

/-- `Server::startListening`: create a Unix stream socket, bind it at
`<tempdir>/helper_server.sock`, listen with backlog 50, and chmod the
socket file to `0777 | sticky`.  Failures of `socket`, `bind` and
`listen` raise a `SystemException` (modelled as `Except.error`);
the result of `chmod` is ignored. -/
def startListening (tempDir : String) (env : ListenEnv) : Except String ListenResult :=
  let socketName := tempDir ++ "/helper_server.sock"
  match env.socketFd with
  | none => .error ("Cannot create an unconnected Unix socket")
  | some _ =>
    if env.bindOk then
      if env.listenOk then
        .ok ⟨socketName, BACKLOG_SIZE, SOCKET_MODE, env.chmodOk⟩
      else
        .error ("Cannot bind on Unix socket '" ++ socketName ++ "'")
    else
      .error ("Cannot bind on Unix socket '" ++ socketName ++ "'")

/-- One `Client` as constructed by `Server::startClientHandlerThreads`:
its number and the shared state handed to it. -/
structure ClientModel where
  number : Nat
  poolId : Nat
  password : List Nat
  serverSocket : Nat
  deriving Repr, DecidableEq

/-- The `Server` object: shared secret, admin pipe, listening socket,
thread count, the pool's configured maximum size, and the client
handlers spawned by `startClientHandlerThreads`. -/
structure ServerModel where
  password : List Nat
  adminPipe : Nat
  serverSocket : Nat
  poolId : Nat
  numberOfThreads : Nat
  poolMaxSize : Nat
  clients : List ClientModel
  deriving Repr, DecidableEq

/-- The `Server` constructor: `numberOfThreads = maxPoolSize * 4` in
`unsigned int` arithmetic, and `pool->setMax(maxPoolSize)`. -/
def mkServer (password : List Nat) (adminPipe serverSocket poolId maxPoolSize : Nat) :
    ServerModel :=
  { password := password, adminPipe := adminPipe, serverSocket := serverSocket
    poolId := poolId
    numberOfThreads := (maxPoolSize % U32) * 4 % U32
    poolMaxSize := maxPoolSize % U32
    clients := [] }

/-- `Server::startClientHandlerThreads`: construct `numberOfThreads`
clients, numbered from 1, all sharing the pool, the password and the
listening socket. -/
def startClientHandlerThreads (s : ServerModel) : ServerModel :=
  { s with
    clients := (List.range s.numberOfThreads).map fun i =>
      ⟨i + 1, s.poolId, s.password, s.serverSocket⟩ }

/-- Modelled from the spec: `receivePassword` reads exactly
`HELPER_SERVER_PASSWORD_SIZE` bytes from the admin pipe via
`MessageChannel::readRaw`; a short read raises an `IOException`. -/
def receivePassword (adminPipe : Conn) : Option (List Nat × Conn) :=
  readRaw PASSWORD_SIZE adminPipe

/-- Environment of `main`: whether creating the temp dir succeeds,
and the listening-socket environment. -/
structure StartupEnv where
  tempDir : String
  tempDirOk : Bool
  listenEnv : ListenEnv
  deriving Repr, DecidableEq

/-- `main`: exit code of the helper server process.  Exceptions
raised during startup (short password read, temp dir failure, socket
failure) are caught and turn into exit code 1; once startup succeeds,
`Server::start` blocks on a 1-byte read of the admin pipe (a byte or
EOF both mean shutdown) and `main` then returns 0. -/
def mainExitCode (adminPipe : Conn) (env : StartupEnv) : Nat :=
  match receivePassword adminPipe with
  | none => 1
  | some _ =>
    if env.tempDirOk then
      match startListening env.tempDir env.listenEnv with
      | .error _ => 1
      | .ok _ => 0
    else
      1

/-- A demonstration secret: 64 × `'A'`. -/
def demoSecret : List Nat := List.replicate 64 65

/-- A demonstration SCGI frame: `17:DOCUMENT_ROOT\0/x\0,`. -/
def demoFrame : List Nat :=
  strBytes ("17:DOCUMENT_ROOT") ++ [0] ++ strBytes ("/x") ++ [0, 44]

/-! ## Lemmas about the connection model -/

theorem readConn_fst_length (c : Conn) (n : Nat) :
    (readConn c n).1.length = min n (min (c.sched.headD 0 + 1) c.bytes.length) := by
  simp only [readConn, List.length_take]
  omega

theorem readConn_fst_take (c : Conn) (n : Nat) {m : Nat}
    (hm : (readConn c n).1.length = m) : (readConn c n).1 = c.bytes.take m := by
  subst hm
  rw [readConn_fst_length]
  simp only [readConn]

theorem readConn_snd_bytes (c : Conn) (n : Nat) {m : Nat}
    (hm : (readConn c n).1.length = m) : (readConn c n).2.bytes = c.bytes.drop m := by
  subst hm
  rw [readConn_fst_length]
  simp only [readConn]

theorem readConn_fst_length_le (c : Conn) (n : Nat) :
    (readConn c n).1.length ≤ n := by
  rw [readConn_fst_length]
  omega

theorem readConn_fst_length_le_bytes (c : Conn) (n : Nat) :
    (readConn c n).1.length ≤ c.bytes.length := by
  rw [readConn_fst_length]
  omega

theorem readConn_fst_nil_iff (c : Conn) (n : Nat) (hn : n ≠ 0) :
    (readConn c n).1 = [] ↔ c.bytes = [] := by
  rw [← List.length_eq_zero, ← List.length_eq_zero (l := c.bytes), readConn_fst_length]
  omega

theorem readConn_fst_length_pos (c : Conn) (n : Nat) (hn : n ≠ 0)
    (hb : c.bytes ≠ []) : 0 < (readConn c n).1.length := by
  rw [readConn_fst_length]
  have : c.bytes.length ≠ 0 := fun h => hb (List.length_eq_zero.mp h)
  omega

theorem readRawFuel_spec (fuel n : Nat) (c : Conn) (hf : n ≤ fuel) :
    (readRawFuel fuel n c = none ↔ c.bytes.length < n) ∧
      ∀ buf c', readRawFuel fuel n c = some (buf, c') →
        buf = c.bytes.take n ∧ c'.bytes = c.bytes.drop n := by
  induction fuel generalizing n c with
  | zero =>
    have hn : n = 0 := by omega
    subst hn
    simp [readRawFuel]
  | succ fuel ih =>
    rcases n with _ | n
    · simp [readRawFuel]
    · simp only [readRawFuel]
      obtain ⟨m, hm⟩ : ∃ m, (readConn c (n + 1)).1.length = m := ⟨_, rfl⟩
      have htake : (readConn c (n + 1)).1 = c.bytes.take m := readConn_fst_take c (n + 1) hm
      have hbytes : (readConn c (n + 1)).2.bytes = c.bytes.drop m := readConn_snd_bytes c (n + 1) hm
      have hle : m ≤ n + 1 := hm ▸ readConn_fst_length_le c (n + 1)
      have hlenb : m ≤ c.bytes.length := hm ▸ readConn_fst_length_le_bytes c (n + 1)
      by_cases hnil : (readConn c (n + 1)).1 = []
      · have hb : c.bytes = [] := (readConn_fst_nil_iff c (n + 1) (by omega)).mp hnil
        rw [if_pos hnil]
        simp [hb]
      · have hb : c.bytes ≠ [] := fun h => hnil ((readConn_fst_nil_iff c (n + 1) (by omega)).mpr h)
        have hpos : 0 < m := hm ▸ readConn_fst_length_pos c (n + 1) (by omega) hb
        rw [if_neg hnil, hm]
        have hrec := ih (n + 1 - m) (readConn c (n + 1)).2 (by omega)
        constructor
        · rw [Option.map_eq_none']
          rw [hrec.1, hbytes, List.length_drop]
          omega
        · intro buf c' hsome
          obtain ⟨⟨rest, c''⟩, hrest, heq⟩ := Option.map_eq_some'.mp hsome
          obtain ⟨hbuf, hc'⟩ := hrec.2 rest c'' hrest
          cases heq
          rw [hbytes] at hbuf hc'
          constructor
          · show (readConn c (n + 1)).1 ++ rest = _
            have hsplit : c.bytes.take (n + 1) =
                c.bytes.take m ++ (c.bytes.drop m).take (n + 1 - m) := by
              rw [← List.take_add]
              congr 1
              omega
            rw [hsplit, htake, hbuf]
          · show c''.bytes = _
            rw [hc', List.drop_drop]
            congr 1
            omega

theorem readRaw_none_iff (n : Nat) (c : Conn) :
    readRaw n c = none ↔ c.bytes.length < n :=
  (readRawFuel_spec n n c le_rfl).1

theorem readRaw_some (n : Nat) (c : Conn) (buf : List Nat) (c' : Conn)
    (h : readRaw n c = some (buf, c')) :
    buf = c.bytes.take n ∧ c'.bytes = c.bytes.drop n :=
  (readRawFuel_spec n n c le_rfl).2 buf c' h

/-! ## Lemmas about memcmp -/

theorem memcmpRun_steps (a b : List Nat) (h : a.length = b.length) :
    (memcmpRun a b).1 = min a.length (commonPrefixLen a b + 1) := by
  induction a generalizing b with
  | nil => simp [memcmpRun]
  | cons x as iha =>
    rcases b with _ | ⟨y, bs⟩
    · simp at h
    · simp only [List.length_cons, Nat.add_right_cancel_iff] at h
      by_cases hxy : x = y
      · subst hxy
        simp only [memcmpRun, commonPrefixLen, if_pos rfl]
        rw [iha bs h]
        simp [List.length_cons]
        omega
      · simp [memcmpRun, commonPrefixLen, hxy]

theorem memcmpRun_eq_iff (a b : List Nat) (h : a.length = b.length) :
    (memcmpRun a b).2 = true ↔ a = b := by
  induction a generalizing b with
  | nil =>
    rcases b with _ | _
    · simp [memcmpRun]
    · simp at h
  | cons x as iha =>
    rcases b with _ | ⟨y, bs⟩
    · simp at h
    · simp only [List.length_cons, Nat.add_right_cancel_iff] at h
      by_cases hxy : x = y
      · subst hxy
        simp [memcmpRun, iha bs h]
      · simp [memcmpRun, hxy]

/-! ## Lemmas about authentication -/

theorem readAndCheckPassword_fst (secret : List Nat) (c : Conn)
    (hs : secret.length = PASSWORD_SIZE) :
    (readAndCheckPassword secret c).1 = true ↔
      PASSWORD_SIZE ≤ c.bytes.length ∧ c.bytes.take PASSWORD_SIZE = secret := by
  unfold readAndCheckPassword
  rcases hr : readRaw PASSWORD_SIZE c with _ | ⟨buf, c'⟩
  · have := (readRaw_none_iff PASSWORD_SIZE c).mp hr
    simp
    omega
  · obtain ⟨hbuf, _⟩ := readRaw_some PASSWORD_SIZE c buf c' hr
    have hnone := (readRaw_none_iff PASSWORD_SIZE c).not.mp (by simp [hr])
    have hlen : PASSWORD_SIZE ≤ c.bytes.length := by omega
    have hblen : buf.length = PASSWORD_SIZE := by
      rw [hbuf, List.length_take]
      omega
    simp only
    rw [memcmpRun_eq_iff secret buf (by omega)]
    rw [hbuf]
    constructor
    · intro h
      exact ⟨hlen, h.symm⟩
    · intro h
      exact h.2.symm

/-! ## Lemmas about the body-forwarding loop -/

theorem ulongSub_eq_sub {a b : Nat} (hb : b ≤ a) (ha : a < U64) :
    ulongSub a b = a - b := by
  unfold ulongSub U64 at *
  omega

theorem ulongSub_pos {a b : Nat} (hab : b ≠ a) (ha : a < U64) (hb : b < U64) :
    0 < ulongSub a b := by
  unfold ulongSub U64 at *
  omega

theorem sendLoop_take (fuel : Nat) :
    ∀ (cl bf : Nat) (c : Conn), c.bytes.length < fuel → cl < U64 → bf ≤ cl →
      sendLoop fuel cl bf c = c.bytes.take (cl - bf) := by
  induction fuel with
  | zero =>
    intro cl bf c hf
    omega
  | succ fuel ih =>
    intro cl bf c hf hcl hbf
    rw [sendLoop]
    by_cases hdone : bf = cl
    · rw [if_pos hdone]
      simp [hdone]
    · rw [if_neg hdone]
      have hlt : bf < cl := by omega
      have hsub : ulongSub cl bf = cl - bf := ulongSub_eq_sub (by omega) hcl
      obtain ⟨m, hm⟩ : ∃ m, (readConn c (min (ulongSub cl bf) 16384)).1.length = m := ⟨_, rfl⟩
      have htake := readConn_fst_take c (min (ulongSub cl bf) 16384) hm
      have hbytes := readConn_snd_bytes c (min (ulongSub cl bf) 16384) hm
      have hmle : m ≤ min (ulongSub cl bf) 16384 := hm ▸ readConn_fst_length_le c _
      have hmlb : m ≤ c.bytes.length := hm ▸ readConn_fst_length_le_bytes c _
      by_cases hnil : (readConn c (min (ulongSub cl bf) 16384)).1 = []
      · have hb : c.bytes = [] := by
          refine (readConn_fst_nil_iff c _ ?_).mp hnil
          rw [hsub]
          omega
        rw [if_pos hnil]
        simp [hb]
      · rw [if_neg hnil]
        have hb : c.bytes ≠ [] := fun h => hnil ((readConn_fst_nil_iff c _ (by rw [hsub]; omega)).mpr h)
        have hpos : 0 < m := by
          rw [← hm]
          exact readConn_fst_length_pos c _ (by rw [hsub]; omega) hb
        have hmcl : m ≤ cl - bf := by
          rw [hsub] at hmle
          omega
        have hmod : (bf + (readConn c (min (ulongSub cl bf) 16384)).1.length) % U64 = bf + m := by
          rw [hm]
          apply Nat.mod_eq_of_lt
          unfold U64 at *
          omega
        rw [hmod]
        have hrec := ih cl (bf + m) (readConn c (min (ulongSub cl bf) 16384)).2
          (by rw [hbytes, List.length_drop]; omega) hcl (by omega)
        rw [hrec, hbytes, htake]
        have hsplit : c.bytes.take (cl - bf) =
            c.bytes.take m ++ (c.bytes.drop m).take (cl - bf - m) := by
          rw [← List.take_add]
          congr 1
          omega
        rw [hsplit]
        congr 2
        omega

theorem sendLoop_all (fuel : Nat) :
    ∀ (cl bf : Nat) (c : Conn), c.bytes.length < fuel → cl < bf →
      bf + c.bytes.length < U64 → sendLoop fuel cl bf c = c.bytes := by
  induction fuel with
  | zero =>
    intro cl bf c hf
    omega
  | succ fuel ih =>
    intro cl bf c hf hlt hno
    rw [sendLoop]
    have hbf : bf < U64 := by omega
    have hcl : cl < U64 := by omega
    have hdone : ¬ bf = cl := by omega
    rw [if_neg hdone]
    have hsubpos : 0 < ulongSub cl bf := ulongSub_pos (by omega) hcl hbf
    obtain ⟨m, hm⟩ : ∃ m, (readConn c (min (ulongSub cl bf) 16384)).1.length = m := ⟨_, rfl⟩
    have htake := readConn_fst_take c (min (ulongSub cl bf) 16384) hm
    have hbytes := readConn_snd_bytes c (min (ulongSub cl bf) 16384) hm
    have hmlb : m ≤ c.bytes.length := hm ▸ readConn_fst_length_le_bytes c _
    by_cases hnil : (readConn c (min (ulongSub cl bf) 16384)).1 = []
    · have hb : c.bytes = [] := (readConn_fst_nil_iff c _ (by omega)).mp hnil
      rw [if_pos hnil]
      rw [hb]
    · rw [if_neg hnil]
      have hb : c.bytes ≠ [] := fun h => hnil ((readConn_fst_nil_iff c _ (by omega)).mpr h)
      have hpos : 0 < m := by
        rw [← hm]
        exact readConn_fst_length_pos c _ (by omega) hb
      have hmod : (bf + (readConn c (min (ulongSub cl bf) 16384)).1.length) % U64 = bf + m := by
        rw [hm]
        apply Nat.mod_eq_of_lt
        omega
      rw [hmod]
      have hrec := ih cl (bf + m) (readConn c (min (ulongSub cl bf) 16384)).2
        (by rw [hbytes, List.length_drop]; omega) (by omega)
        (by rw [hbytes, List.length_drop]; omega)
      rw [hrec, hbytes, htake, List.take_append_drop]

/-! ## Lemmas about the SCGI parse loop -/

theorem feedByte_consumedTotal (p : ScgiParser) (b : Nat) :
    (p.feedByte b).consumedTotal = p.consumedTotal + 1 := by
  unfold ScgiParser.feedByte
  cases p.state <;> simp <;> split_ifs <;> rfl

theorem feed_consumed_le (p : ScgiParser) (buf : List Nat) :
    (p.feed buf).2 ≤ buf.length := by
  induction buf generalizing p with
  | nil => simp [ScgiParser.feed]
  | cons b rest ih =>
    rw [ScgiParser.feed]
    by_cases h : p.acceptingInput
    · rw [if_pos h]
      have := ih (p.feedByte b)
      simp only [List.length_cons]
      omega
    · rw [if_neg h]
      simp

theorem feed_consumedTotal (p : ScgiParser) (buf : List Nat) :
    (p.feed buf).1.consumedTotal = p.consumedTotal + (p.feed buf).2 := by
  induction buf generalizing p with
  | nil => simp [ScgiParser.feed]
  | cons b rest ih =>
    rw [ScgiParser.feed]
    by_cases h : p.acceptingInput
    · rw [if_pos h]
      have := ih (p.feedByte b)
      rw [feedByte_consumedTotal] at this
      simp only
      omega
    · rw [if_neg h]
      simp

theorem feed_accepting_consumed (p : ScgiParser) (buf : List Nat)
    (h : (p.feed buf).1.acceptingInput = true) : (p.feed buf).2 = buf.length := by
  induction buf generalizing p with
  | nil => simp [ScgiParser.feed]
  | cons b rest ih =>
    rw [ScgiParser.feed] at h ⊢
    by_cases hp : p.acceptingInput
    · rw [if_pos hp] at h ⊢
      have := ih (p.feedByte b) (by simpa using h)
      simp only [List.length_cons]
      omega
    · rw [if_neg hp] at h
      exact absurd h (by simpa using hp)

theorem parseLoop_invariant (fuel : Nat) :
    ∀ (p : ScgiParser) (c : Conn) (readB : List Nat) (last : List Nat × Nat),
      c.bytes.length < fuel → p.acceptingInput = true →
      p.consumedTotal = readB.length →
      (parseLoop fuel p c readB last).parser.acceptingInput = false →
      (parseLoop fuel p c readB last).readBytes.drop
          (parseLoop fuel p c readB last).parser.consumedTotal =
        (parseLoop fuel p c readB last).lastChunk.drop
          (parseLoop fuel p c readB last).lastConsumed := by
  induction fuel with
  | zero =>
    intro p c readB last hf
    omega
  | succ fuel ih =>
    intro p c readB last hf hacc hinv hstop
    rw [parseLoop] at hstop ⊢
    obtain ⟨m, hm⟩ : ∃ m, (readConn c 16384).1.length = m := ⟨_, rfl⟩
    have htake := readConn_fst_take c 16384 hm
    have hbytes := readConn_snd_bytes c 16384 hm
    have hmlb : m ≤ c.bytes.length := hm ▸ readConn_fst_length_le_bytes c _
    by_cases hnil : (readConn c 16384).1 = []
    · rw [if_pos hnil] at hstop
      simp only at hstop
      rw [hacc] at hstop
      simp at hstop
    · rw [if_neg hnil] at hstop ⊢
      have hb : c.bytes ≠ [] := fun h => hnil ((readConn_fst_nil_iff c _ (by omega)).mpr h)
      have hpos : 0 < m := hm ▸ readConn_fst_length_pos c _ (by omega) hb
      have hct := feed_consumedTotal p (readConn c 16384).1
      have hcle := feed_consumed_le p (readConn c 16384).1
      by_cases hacc' : (p.feed (readConn c 16384).1).1.acceptingInput = true
      · rw [if_pos hacc'] at hstop ⊢
        apply ih _ _ _ _ (by rw [hbytes, List.length_drop]; omega) hacc' _ hstop
        rw [hct, feed_accepting_consumed p _ hacc', hinv, List.length_append]
      · rw [if_neg hacc']
        simp only
        rw [hct, hinv, List.drop_append_eq_append_drop]
        have h1 : readB.drop (readB.length + (p.feed (readConn c 16384).1).2) = [] := by
          apply List.drop_eq_nil_of_le
          omega
        rw [h1, List.nil_append]
        congr 1
        omega

/-! ## Lemmas about the status extractor -/

theorem takeLine_length {s l r : List Nat} (h : takeLine s = some (l, r)) :
    r.length + 2 ≤ s.length := by
  induction s using takeLine.induct generalizing l r with
  | case1 => simp [takeLine] at h
  | case2 b => simp [takeLine] at h
  | case3 b b' rest hc =>
    rw [takeLine, if_pos hc] at h
    cases h
    simp
  | case4 b b' rest hc ih =>
    rw [takeLine, if_neg hc] at h
    obtain ⟨⟨l', r'⟩, hl, he⟩ := Option.map_eq_some'.mp h
    cases he
    have := ih hl
    simp only [List.length_cons] at this ⊢
    omega

theorem takeLine_append {s l r : List Nat} (q : List Nat)
    (h : takeLine s = some (l, r)) : takeLine (s ++ q) = some (l, r ++ q) := by
  induction s using takeLine.induct generalizing l r with
  | case1 => simp [takeLine] at h
  | case2 b => simp [takeLine] at h
  | case3 b b' rest hc =>
    rw [takeLine, if_pos hc] at h
    cases h
    rw [List.cons_append, List.cons_append, takeLine, if_pos hc]
  | case4 b b' rest hc ih =>
    rw [takeLine, if_neg hc] at h
    obtain ⟨⟨l', r'⟩, hl, he⟩ := Option.map_eq_some'.mp h
    cases he
    rw [List.cons_append, List.cons_append, takeLine, if_neg hc]
    rw [← List.cons_append, ih hl]
    rfl

theorem takeLine_some_length {s l r : List Nat} (h : takeLine s = some (l, r)) :
    2 ≤ s.length := by
  have := takeLine_length h
  omega

theorem extractGo_fuel {f g : Nat} : ∀ {s : List Nat}, s.length ≤ f → s.length ≤ g →
    extractGo f s = extractGo g s := by
  induction f generalizing g with
  | zero =>
    intro s hf hg
    have hs : s = [] := List.length_eq_zero.mp (by omega)
    subst hs
    rcases g with _ | g
    · rfl
    · simp [extractGo, takeLine]
  | succ f ih =>
    intro s hf hg
    rcases g with _ | g
    · have hs : s = [] := List.length_eq_zero.mp (by omega)
      subst hs
      simp [extractGo, takeLine]
    · rw [extractGo, extractGo]
      rcases htl : takeLine s with _ | ⟨line, rest⟩
      · rfl
      · simp only
        have hlen := takeLine_length htl
        by_cases h1 : line = []
        · simp [h1]
        · rw [if_neg h1, if_neg h1]
          by_cases h2 : statusKey.isPrefixOf line
          · rw [if_pos h2, if_pos h2]
          · rw [if_neg h2, if_neg h2]
            exact ih (by omega) (by omega)

theorem extractGo_append {f : Nat} :
    ∀ {s sl : List Nat} (q : List Nat) {g : Nat}, s.length ≤ f →
      extractGo f s = some sl → (s ++ q).length ≤ g →
      extractGo g (s ++ q) = some sl := by
  induction f with
  | zero =>
    intro s sl q g hf h
    rw [extractGo] at h
    cases h
  | succ f ih =>
    intro s sl q g hf h hg
    rw [extractGo] at h
    rcases htl : takeLine s with _ | ⟨line, rest⟩
    · rw [htl] at h
      cases h
    · rw [htl] at h
      simp only at h
      have hslen := takeLine_some_length htl
      have hqlen : 2 ≤ (s ++ q).length := by
        rw [List.length_append]
        omega
      rcases g with _ | g
      · omega
      · rw [extractGo, takeLine_append q htl]
        simp only
        have hlen := takeLine_length htl
        by_cases h1 : line = []
        · rw [if_pos h1] at h ⊢
          exact h
        · rw [if_neg h1] at h ⊢
          by_cases h2 : statusKey.isPrefixOf line
          · rw [if_pos h2] at h ⊢
            exact h
          · rw [if_neg h2] at h ⊢
            exact ih q (by omega) h (by
              rw [List.length_append] at hg ⊢
              omega)

theorem extractStatus_append {s sl : List Nat} (q : List Nat)
    (h : extractStatus s = some sl) : extractStatus (s ++ q) = some sl :=
  extractGo_append q le_rfl h le_rfl

/-! ## Lemmas about response forwarding -/

theorem pumpLoop_all (fuel : Nat) :
    ∀ (c : Conn), c.bytes.length < fuel → pumpLoop fuel c = c.bytes := by
  induction fuel with
  | zero =>
    intro c hf
    omega
  | succ fuel ih =>
    intro c hf
    rw [pumpLoop]
    obtain ⟨m, hm⟩ : ∃ m, (readConn c 32768).1.length = m := ⟨_, rfl⟩
    have htake := readConn_fst_take c 32768 hm
    have hbytes := readConn_snd_bytes c 32768 hm
    have hmlb : m ≤ c.bytes.length := hm ▸ readConn_fst_length_le_bytes c _
    by_cases hnil : (readConn c 32768).1 = []
    · rw [if_pos hnil]
      exact ((readConn_fst_nil_iff c _ (by omega)).mp hnil).symm
    · rw [if_neg hnil]
      have hb : c.bytes ≠ [] := fun h => hnil ((readConn_fst_nil_iff c _ (by omega)).mpr h)
      have hpos : 0 < m := hm ▸ readConn_fst_length_pos c _ (by omega) hb
      rw [ih _ (by rw [hbytes, List.length_drop]; omega), hbytes, htake,
        List.take_append_drop]

theorem statusPhase_sound (fuel : Nat) :
    ∀ (buffer : List Nat) (c : Conn) (buf : List Nat) (c' : Conn),
      statusPhase fuel buffer c = some (buf, c') →
      (extractStatus buf).isSome ∧ buf ++ c'.bytes = buffer ++ c.bytes := by
  induction fuel with
  | zero =>
    intro buffer c buf c' h
    rw [statusPhase] at h
    cases h
  | succ fuel ih =>
    intro buffer c buf c' h
    rw [statusPhase] at h
    obtain ⟨m, hm⟩ : ∃ m, (readConn c 32768).1.length = m := ⟨_, rfl⟩
    have htake := readConn_fst_take c 32768 hm
    have hbytes := readConn_snd_bytes c 32768 hm
    have hmlb : m ≤ c.bytes.length := hm ▸ readConn_fst_length_le_bytes c _
    by_cases hnil : (readConn c 32768).1 = []
    · rw [if_pos hnil] at h
      cases h
    · rw [if_neg hnil] at h
      by_cases hsome : (extractStatus (buffer ++ (readConn c 32768).1)).isSome
      · rw [if_pos hsome] at h
        cases h
        refine ⟨hsome, ?_⟩
        rw [List.append_assoc, hbytes, htake, List.take_append_drop]
      · rw [if_neg hsome] at h
        obtain ⟨he, hjoin⟩ := ih _ _ _ _ h
        refine ⟨he, ?_⟩
        rw [hjoin, List.append_assoc, hbytes, htake, List.take_append_drop]

theorem statusPhase_complete (fuel : Nat) :
    ∀ (buffer : List Nat) (c : Conn) (sl : List Nat),
      c.bytes.length < fuel → extractStatus buffer = none →
      extractStatus (buffer ++ c.bytes) = some sl →
      ∃ buf c', statusPhase fuel buffer c = some (buf, c') ∧
        extractStatus buf = some sl := by
  induction fuel with
  | zero =>
    intro buffer c sl hf
    omega
  | succ fuel ih =>
    intro buffer c sl hf hnone hsl
    rw [statusPhase]
    obtain ⟨m, hm⟩ : ∃ m, (readConn c 32768).1.length = m := ⟨_, rfl⟩
    have htake := readConn_fst_take c 32768 hm
    have hbytes := readConn_snd_bytes c 32768 hm
    have hmlb : m ≤ c.bytes.length := hm ▸ readConn_fst_length_le_bytes c _
    have hbne : c.bytes ≠ [] := by
      intro hb
      rw [hb, List.append_nil] at hsl
      rw [hnone] at hsl
      cases hsl
    by_cases hnil : (readConn c 32768).1 = []
    · exact absurd ((readConn_fst_nil_iff c _ (by omega)).mp hnil) hbne
    · rw [if_neg hnil]
      have hpos : 0 < m := hm ▸ readConn_fst_length_pos c _ (by omega) hbne
      have hjoin : (buffer ++ (readConn c 32768).1) ++ (readConn c 32768).2.bytes =
          buffer ++ c.bytes := by
        rw [List.append_assoc, hbytes, htake, List.take_append_drop]
      by_cases hsome : (extractStatus (buffer ++ (readConn c 32768).1)).isSome
      · rw [if_pos hsome]
        obtain ⟨x, hx⟩ := Option.isSome_iff_exists.mp hsome
        have hxsl : x = sl := by
          have := extractStatus_append (readConn c 32768).2.bytes hx
          rw [hjoin, hsl] at this
          exact (Option.some.injEq _ _ ▸ this).symm
        exact ⟨_, _, rfl, hxsl ▸ hx⟩
      · rw [if_neg hsome]
        apply ih
        · rw [hbytes, List.length_drop]
          omega
        · exact Option.not_isSome_iff_eq_none.mp hsome
        · rw [hjoin]
          exact hsl

/-! ## Lemmas about the request handler -/

theorem handleRequest_auth_false (secret : List Nat) (pool : PoolBehavior)
    (session c : Conn) (h : (readAndCheckPassword secret c).1 = false) :
    handleRequest secret pool session c = rejectedResult false := by
  unfold handleRequest
  simp [h]

theorem handleRequest_authOk (secret : List Nat) (pool : PoolBehavior)
    (session c : Conn) :
    (handleRequest secret pool session c).authOk = (readAndCheckPassword secret c).1 := by
  unfold handleRequest
  cases hauth : (readAndCheckPassword secret c).1 with
  | false => simp [hauth, rejectedResult]
  | true =>
    simp only [hauth, if_true]
    by_cases h2 : (readAndParseRequestHeaders (readAndCheckPassword secret c).2).1
    · simp only [h2, if_true]
      rcases pool with _ | e <;> rfl
    · simp [h2, rejectedResult]

theorem handleRequest_parseOk (secret : List Nat) (pool : PoolBehavior)
    (session c : Conn) :
    (handleRequest secret pool session c).parseOk =
      ((readAndCheckPassword secret c).1 &&
        (readAndParseRequestHeaders (readAndCheckPassword secret c).2).1) := by
  simp only [handleRequest]
  cases hra : (readAndCheckPassword secret c).1 with
  | false =>
    rw [if_neg Bool.false_ne_true, Bool.false_and]
    rfl
  | true =>
    rw [if_pos rfl, Bool.true_and]
    cases hpr : (readAndParseRequestHeaders (readAndCheckPassword secret c).2).1 with
    | false =>
      rw [if_neg Bool.false_ne_true]
      rfl
    | true =>
      rw [if_pos rfl]
      rcases pool with _ | e <;> rfl

theorem handleRequest_spawnFailure (secret : List Nat) (session c : Conn)
    (e : SpawnException)
    (hra : (readAndCheckPassword secret c).1 = true)
    (hpr : (readAndParseRequestHeaders (readAndCheckPassword secret c).2).1 = true) :
    (handleRequest secret (.spawnFailure e) session c).clientWrites =
        handleSpawnException e ∧
      (handleRequest secret (.spawnFailure e) session c).retVal = false := by
  simp only [handleRequest]
  rw [if_pos hra, if_pos hpr]
  exact ⟨rfl, rfl⟩

theorem handleRequest_parse_false (secret : List Nat) (pool : PoolBehavior)
    (session c : Conn)
    (hra : (readAndCheckPassword secret c).1 = true)
    (hpr : (readAndParseRequestHeaders (readAndCheckPassword secret c).2).1 = false) :
    handleRequest secret pool session c = rejectedResult true := by
  simp only [handleRequest]
  rw [if_pos hra, if_neg (by rw [hpr]; exact Bool.false_ne_true)]

theorem handleRequest_checkoutCalled (secret : List Nat) (pool : PoolBehavior)
    (session c : Conn) :
    (handleRequest secret pool session c).checkoutCalled =
      ((readAndCheckPassword secret c).1 &&
        (readAndParseRequestHeaders (readAndCheckPassword secret c).2).1) := by
  simp only [handleRequest]
  cases hra : (readAndCheckPassword secret c).1 with
  | false =>
    rw [if_neg Bool.false_ne_true, Bool.false_and]
    rfl
  | true =>
    rw [if_pos rfl, Bool.true_and]
    cases hpr : (readAndParseRequestHeaders (readAndCheckPassword secret c).2).1 with
    | false =>
      rw [if_neg Bool.false_ne_true]
      rfl
    | true =>
      rw [if_pos rfl]
      rcases pool with _ | e <;> rfl

theorem handleRequest_retVal (secret : List Nat) (pool : PoolBehavior)
    (session c : Conn) :
    (handleRequest secret pool session c).retVal =
      !((readAndCheckPassword secret c).1 &&
        (readAndParseRequestHeaders (readAndCheckPassword secret c).2).1) := by
  simp only [handleRequest]
  cases hra : (readAndCheckPassword secret c).1 with
  | false =>
    rw [if_neg Bool.false_ne_true, Bool.false_and]
    rfl
  | true =>
    rw [if_pos rfl, Bool.true_and]
    cases hpr : (readAndParseRequestHeaders (readAndCheckPassword secret c).2).1 with
    | false =>
      rw [if_neg Bool.false_ne_true]
      rfl
    | true =>
      rw [if_pos rfl]
      rcases pool with _ | e <;> rfl

theorem handleRequest_partialBody (secret : List Nat) (pool : PoolBehavior)
    (session c : Conn)
    (hra : (readAndCheckPassword secret c).1 = true)
    (hpr : (readAndParseRequestHeaders (readAndCheckPassword secret c).2).1 = true) :
    (handleRequest secret pool session c).partialBody =
      (readAndParseRequestHeaders (readAndCheckPassword secret c).2).2.1 := by
  rcases pool with _ | e <;>
    (simp only [handleRequest]; rw [if_pos hra, if_pos hpr])

theorem handleRequest_parseReadBytes (secret : List Nat) (pool : PoolBehavior)
    (session c : Conn)
    (hra : (readAndCheckPassword secret c).1 = true)
    (hpr : (readAndParseRequestHeaders (readAndCheckPassword secret c).2).1 = true) :
    (handleRequest secret pool session c).parseReadBytes =
      (readAndParseRequestHeaders (readAndCheckPassword secret c).2).2.2.readBytes := by
  rcases pool with _ | e <;>
    (simp only [handleRequest]; rw [if_pos hra, if_pos hpr])

theorem handleRequest_parserConsumed (secret : List Nat) (pool : PoolBehavior)
    (session c : Conn)
    (hra : (readAndCheckPassword secret c).1 = true)
    (hpr : (readAndParseRequestHeaders (readAndCheckPassword secret c).2).1 = true) :
    (handleRequest secret pool session c).parserConsumed =
      (readAndParseRequestHeaders (readAndCheckPassword secret c).2).2.2.parser.consumedTotal := by
  rcases pool with _ | e <;>
    (simp only [handleRequest]; rw [if_pos hra, if_pos hpr])

theorem readAndParse_fst_eq (c : Conn) :
    (readAndParseRequestHeaders c).1 =
      (decide ((readAndParseRequestHeaders c).2.2.parser.state = .DONE) &&
        (readAndParseRequestHeaders c).2.2.parser.hasHeader docRootKey) := by
  simp only [readAndParseRequestHeaders]
  split_ifs with h1 h2
  · simp [h1, h2]
  · rw [Bool.not_eq_true] at h2
    simp [h1, h2]
  · simp [h1]

theorem readAndParse_partial_body (c : Conn)
    (h : (readAndParseRequestHeaders c).1 = true) :
    (readAndParseRequestHeaders c).2.1 =
      (readAndParseRequestHeaders c).2.2.readBytes.drop
        (readAndParseRequestHeaders c).2.2.parser.consumedTotal := by
  have hfst := readAndParse_fst_eq c
  rw [h] at hfst
  have hdone : (readAndParseRequestHeaders c).2.2.parser.state = .DONE := by
    rcases Bool.and_eq_true _ _ |>.mp hfst.symm with ⟨hd, _⟩
    exact of_decide_eq_true hd
  have hhas : (readAndParseRequestHeaders c).2.2.parser.hasHeader docRootKey = true := by
    rcases Bool.and_eq_true _ _ |>.mp hfst.symm with ⟨_, hh⟩
    exact hh
  have hpo : (readAndParseRequestHeaders c).2.2 =
      parseLoop (c.bytes.length + 1) ScgiParser.init c [] ([], 0) := by
    simp only [readAndParseRequestHeaders]
    split_ifs <;> rfl
  have hstop : (parseLoop (c.bytes.length + 1) ScgiParser.init c
      [] ([], 0)).parser.acceptingInput = false := by
    rw [← hpo]
    unfold ScgiParser.acceptingInput
    rw [hdone]
    rfl
  have hinv := parseLoop_invariant (c.bytes.length + 1) ScgiParser.init c [] ([], 0)
    (by omega) (by rfl) (by rfl) hstop
  have hsnd : (readAndParseRequestHeaders c).2.1 =
      (parseLoop (c.bytes.length + 1) ScgiParser.init c [] ([], 0)).lastChunk.drop
        (parseLoop (c.bytes.length + 1) ScgiParser.init c [] ([], 0)).lastConsumed := by
    simp only [readAndParseRequestHeaders]
    split_ifs with h1 h2
    · rfl
    · exact absurd (hpo ▸ hhas) h2
    · exact absurd (hpo ▸ hdone) h1
  rw [hsnd, hpo, ← hinv]

theorem strBytes_append (s t : String) :
    strBytes (s ++ t) = strBytes s ++ strBytes t := by
  simp [strBytes]

theorem handleSpawnException_eq (e : SpawnException) :
    handleSpawnException e =
      strBytes ("HTTP/1.1 500 Internal Server Error\r\nStatus: 500 Internal Server Error\r\nConnection: close\r\nContent-Type: text/html; charset=utf-8\r\nContent-Length: ")
        ++ strBytes (toString (e.errorPage.getD e.message).length)
        ++ strBytes ("\r\n\r\n") ++ e.errorPage.getD e.message := by
  have h1 : strBytes ("HTTP/1.1 500 Internal Server Error\r\nStatus: 500 Internal Server Error\r\nConnection: close\r\nContent-Type: text/html; charset=utf-8\r\nContent-Length: ")
      = strBytes ("HTTP/1.1 500 Internal Server Error\r\n")
        ++ strBytes ("Status: 500 Internal Server Error\r\n")
        ++ strBytes ("Connection: close\r\n")
        ++ strBytes ("Content-Type: text/html; charset=utf-8\r\n")
        ++ strBytes ("Content-Length: ") := by
    decide
  have h2 : strBytes ("\r\n\r\n") = strBytes ("\r\n") ++ strBytes ("\r\n") := by
    decide
  rcases e with ⟨msg, _ | page⟩ <;>
    simp [handleSpawnException, SpawnException.hasErrorPage, SpawnException.getErrorPage,
      h1, h2, List.append_assoc]

/-! ## The claims -/

/-- C1: for every `CONTENT_LENGTH` value CL (an `unsigned long`) and
every pre-buffered partial body P with `|P| ≤ CL`, the bytes
`Client::sendRequestBody` delivers to the backend session are exactly
the first CL bytes of P followed by the bytes read from the client
connection — no more and no fewer — and when the client stream ends
before CL bytes are accumulated, sending stops without error (the
result is simply the shorter prefix, which `List.take` also yields). -/
theorem sendRequestBody_delivers_exactly_contentLength
    (contentLength : Nat) (partialBody : List Nat) (c : Conn)
    (hcl : contentLength < U64) (hp : partialBody.length ≤ contentLength) :
    sendRequestBody contentLength partialBody c =
      (partialBody ++ c.bytes).take contentLength := by
  unfold sendRequestBody
  rw [Nat.mod_eq_of_lt hcl, Nat.mod_eq_of_lt (by omega)]
  show partialBody ++ sendLoop (c.bytes.length + 1) contentLength partialBody.length c = _
  rw [sendLoop_take (c.bytes.length + 1) contentLength partialBody.length c
    (by omega) hcl hp]
  rw [List.take_append_eq_append_take, List.take_of_length_le hp]

/-- C1 witness: a concrete instance of the theorem. -/
theorem sendRequestBody_delivers_exactly_contentLength_witness :
    (5 < U64 ∧ ([1, 2] : List Nat).length ≤ 5) ∧
      sendRequestBody 5 [1, 2] ⟨[3, 4, 5, 6], [9]⟩ =
        (([1, 2] : List Nat) ++ [3, 4, 5, 6]).take 5 :=
  ⟨⟨by decide, by decide⟩,
    sendRequestBody_delivers_exactly_contentLength 5 [1, 2] ⟨[3, 4, 5, 6], [9]⟩
      (by decide) (by decide)⟩

/-- C10: when the partial request body is strictly longer than
`CONTENT_LENGTH`, `Client::sendRequestBody` still sends the entire
partial body, the `unsigned long` count `contentLength −
bytesForwarded` underflows, and the loop keeps forwarding client
bytes until EOF, so strictly more than `CONTENT_LENGTH` bytes reach
the session. -/
theorem sendRequestBody_underflow_overdelivers
    (contentLength : Nat) (partialBody : List Nat) (c : Conn)
    (hlt : contentLength < partialBody.length)
    (hno : partialBody.length + c.bytes.length < U64) :
    sendRequestBody contentLength partialBody c = partialBody ++ c.bytes ∧
      contentLength < (sendRequestBody contentLength partialBody c).length := by
  have hall := sendLoop_all (c.bytes.length + 1) contentLength partialBody.length c
    (by omega) hlt (by omega)
  unfold sendRequestBody
  rw [Nat.mod_eq_of_lt (show contentLength < U64 by omega),
    Nat.mod_eq_of_lt (show partialBody.length < U64 by omega)]
  constructor
  · show partialBody ++ sendLoop (c.bytes.length + 1) contentLength partialBody.length c = _
    rw [hall]
  · show contentLength <
      (partialBody ++ sendLoop (c.bytes.length + 1) contentLength partialBody.length c).length
    rw [hall, List.length_append]
    omega

/-- C10 witness: `CONTENT_LENGTH = 2` with a 3-byte partial body and
2 further client bytes delivers all 5 bytes. -/
theorem sendRequestBody_underflow_overdelivers_witness :
    (2 < ([7, 8, 9] : List Nat).length ∧ ([7, 8, 9] : List Nat).length + 2 < U64) ∧
      sendRequestBody 2 [7, 8, 9] ⟨[4, 5], []⟩ = ([7, 8, 9] : List Nat) ++ [4, 5] ∧
        2 < (sendRequestBody 2 [7, 8, 9] ⟨[4, 5], []⟩).length :=
  ⟨⟨by decide, by decide⟩,
    sendRequestBody_underflow_overdelivers 2 [7, 8, 9] ⟨[4, 5], []⟩
      (by decide) (by decide)⟩

/-- C2: request handling proceeds past authentication exactly when
the first 64 bytes of the connection equal the shared secret; on
mismatch or EOF the handler completes (`retVal = true`, the
connection is then closed by the worker's RAII wrapper) without the
pool's checkout, without writing to the client, and without reading
the socket past the 64 password bytes (the result is unchanged when
every byte after the first 64 is removed from the stream). -/
theorem authentication_gates_request_handling
    (secret : List Nat) (pool : PoolBehavior) (session : Conn)
    (bytes sched : List Nat) (hs : secret.length = PASSWORD_SIZE) :
    ((handleRequest secret pool session ⟨bytes, sched⟩).authOk = true ↔
      PASSWORD_SIZE ≤ bytes.length ∧ bytes.take PASSWORD_SIZE = secret) ∧
    ((handleRequest secret pool session ⟨bytes, sched⟩).authOk = false →
      (handleRequest secret pool session ⟨bytes, sched⟩).checkoutCalled = false ∧
      (handleRequest secret pool session ⟨bytes, sched⟩).clientWrites = [] ∧
      (handleRequest secret pool session ⟨bytes, sched⟩).retVal = true ∧
      handleRequest secret pool session ⟨bytes, sched⟩ =
        handleRequest secret pool session ⟨bytes.take PASSWORD_SIZE, sched⟩) := by
  have hiff := readAndCheckPassword_fst secret ⟨bytes, sched⟩ hs
  have hiff' := readAndCheckPassword_fst secret ⟨bytes.take PASSWORD_SIZE, sched⟩ hs
  constructor
  · rw [handleRequest_authOk]
    exact hiff
  · intro hfail
    rw [handleRequest_authOk] at hfail
    have hcond : ¬(PASSWORD_SIZE ≤ bytes.length ∧ bytes.take PASSWORD_SIZE = secret) := by
      intro hc
      rw [hiff.mpr hc] at hfail
      cases hfail
    have hfail' : (readAndCheckPassword secret ⟨bytes.take PASSWORD_SIZE, sched⟩).1 = false := by
      rw [← Bool.not_eq_true, hiff']
      rintro ⟨hl, ht⟩
      apply hcond
      constructor
      · simp only [Conn.bytes] at hl
        rw [List.length_take] at hl
        omega
      · simp only [Conn.bytes] at ht
        rw [List.take_take, min_self] at ht
        exact ht
    rw [handleRequest_auth_false secret pool session _ hfail,
      handleRequest_auth_false secret pool session _ hfail']
    exact ⟨rfl, rfl, rfl, rfl⟩

/-- C2 witness: with the secret 64 × `'A'`, a connection sending 64
zero bytes fails authentication, and a connection sending the secret
passes. -/
theorem authentication_gates_request_handling_witness :
    (List.replicate 64 65 : List Nat).length = PASSWORD_SIZE ∧
      ((handleRequest (List.replicate 64 65) .session ⟨[], []⟩
          ⟨List.replicate 64 0, []⟩).authOk = true ↔
        PASSWORD_SIZE ≤ (List.replicate 64 0 : List Nat).length ∧
          (List.replicate 64 0 : List Nat).take PASSWORD_SIZE = List.replicate 64 65) :=
  ⟨by decide,
    (authentication_gates_request_handling (List.replicate 64 65) .session ⟨[], []⟩
      (List.replicate 64 0) [] (by decide)).1⟩

/-- C6 counterexample: the number of byte comparisons `memcmp`
performs inside `Client::readAndCheckPassword` depends on the
client-supplied bytes: against the secret 64 × `'A'`, an input
differing in the first byte is rejected after 1 comparison while an
input differing only in the last byte takes 64, so the comparison is
not constant-time. -/
theorem memcmp_steps_depend_on_input :
    (memcmpRun (List.replicate 64 65) (66 :: List.replicate 63 65)).1 ≠
      (memcmpRun (List.replicate 64 65) (List.replicate 63 65 ++ [66])).1 := by
  decide

/-- C6 amended: the password comparison is C `memcmp`, an early-exit
byte-by-byte scan, not a constant-time comparison: the number of byte
comparisons equals the length of the longest matching prefix plus one
(capped at the secret length), and it reports equality exactly for
the secret itself. -/
theorem memcmp_early_exit (secret buf : List Nat) (h : secret.length = buf.length) :
    (memcmpRun secret buf).1 = min secret.length (commonPrefixLen secret buf + 1) ∧
      ((memcmpRun secret buf).2 = true ↔ secret = buf) :=
  ⟨memcmpRun_steps secret buf h, memcmpRun_eq_iff secret buf h⟩

/-- C6 amended witness: a concrete instance. -/
theorem memcmp_early_exit_witness :
    ([1, 2, 3] : List Nat).length = ([1, 2, 4] : List Nat).length ∧
      ((memcmpRun [1, 2, 3] [1, 2, 4]).1 =
          min ([1, 2, 3] : List Nat).length (commonPrefixLen [1, 2, 3] [1, 2, 4] + 1) ∧
        ((memcmpRun [1, 2, 3] [1, 2, 4]).2 = true ↔ ([1, 2, 3] : List Nat) = [1, 2, 4])) :=
  ⟨by decide, memcmp_early_exit [1, 2, 3] [1, 2, 4] (by decide)⟩

/-- C3: whenever the status extractor finds a status line `sl` in the
backend session stream, `Client::forwardResponse` writes to the
client exactly `"HTTP/1.1 "`, the status line, CRLF, and then every
byte of the backend stream (the extractor's buffered bytes followed
by the remaining bytes forwarded verbatim), byte-exactly and
independently of the chunk boundaries in which the stream is read
(`session.sched` is an arbitrary chunking schedule and does not
appear in the right-hand side). -/
theorem forwardResponse_byte_exact (session : Conn) (sl : List Nat)
    (h : extractStatus session.bytes = some sl) :
    forwardResponse session =
      strBytes ("HTTP/1.1 ") ++ sl ++ [13, 10] ++ session.bytes := by
  obtain ⟨buf, c', hsp, hbuf⟩ := statusPhase_complete (session.bytes.length + 1) [] session sl
    (by omega) rfl (by rw [List.nil_append]; exact h)
  have hsound := statusPhase_sound (session.bytes.length + 1) [] session buf c' hsp
  have hjoin : buf ++ c'.bytes = session.bytes := by
    have h2 := hsound.2
    rwa [List.nil_append] at h2
  unfold forwardResponse
  rw [hsp]
  simp only
  rw [hbuf, Option.getD_some]
  rw [pumpLoop_all (c'.bytes.length + 1) c' (by omega)]
  rw [← hjoin]
  simp [List.append_assoc]

/-- C3 witness: a concrete backend stream with an explicit `Status`
header. -/
theorem forwardResponse_byte_exact_witness :
    extractStatus (strBytes ("Status: 200 OK\r\n\r\nhi")) = some (strBytes ("200 OK")) ∧
      forwardResponse ⟨strBytes ("Status: 200 OK\r\n\r\nhi"), []⟩ =
        strBytes ("HTTP/1.1 ") ++ strBytes ("200 OK") ++ [13, 10]
          ++ strBytes ("Status: 200 OK\r\n\r\nhi") :=
  ⟨by decide,
    forwardResponse_byte_exact ⟨strBytes ("Status: 200 OK\r\n\r\nhi"), []⟩
      (strBytes ("200 OK")) (by decide)⟩

/-- C4: when the pool's checkout raises a spawn failure, the client
receives exactly the 500 template — status line, `Status`,
`Connection`, `Content-Type` and `Content-Length` headers each
CRLF-terminated, an empty line, then the body, which is the
failure's HTML error page when present and its text message
otherwise, with `Content-Length` the byte length of that body — and
the handler returns (`Completed`, `retVal = false`). -/
theorem spawnFailure_yields_500_template (secret : List Nat) (session c : Conn)
    (e : SpawnException)
    (hauth : (handleRequest secret (.spawnFailure e) session c).authOk = true)
    (hparse : (handleRequest secret (.spawnFailure e) session c).parseOk = true) :
    (handleRequest secret (.spawnFailure e) session c).clientWrites =
      strBytes ("HTTP/1.1 500 Internal Server Error\r\nStatus: 500 Internal Server Error\r\nConnection: close\r\nContent-Type: text/html; charset=utf-8\r\nContent-Length: ")
        ++ strBytes (toString (e.errorPage.getD e.message).length)
        ++ strBytes ("\r\n\r\n") ++ e.errorPage.getD e.message ∧
      (handleRequest secret (.spawnFailure e) session c).retVal = false := by
  have hra : (readAndCheckPassword secret c).1 = true := by
    rw [handleRequest_authOk] at hauth
    exact hauth
  have hpr : (readAndParseRequestHeaders (readAndCheckPassword secret c).2).1 = true := by
    rw [handleRequest_parseOk, hra, Bool.true_and] at hparse
    exact hparse
  obtain ⟨hw, hr⟩ := handleRequest_spawnFailure secret session c e hra hpr
  rw [hw, handleSpawnException_eq]
  exact ⟨rfl, hr⟩

/-- C4 witness: a concrete connection that authenticates and parses,
with a spawn failure carrying an HTML error page. -/
theorem spawnFailure_yields_500_template_witness :
    ((handleRequest demoSecret
        (.spawnFailure ⟨strBytes ("boom"), some (strBytes ("<h1>oops</h1>"))⟩)
        ⟨[], []⟩ ⟨demoSecret ++ demoFrame, []⟩).authOk = true ∧
      (handleRequest demoSecret
        (.spawnFailure ⟨strBytes ("boom"), some (strBytes ("<h1>oops</h1>"))⟩)
        ⟨[], []⟩ ⟨demoSecret ++ demoFrame, []⟩).parseOk = true) ∧
    (handleRequest demoSecret
        (.spawnFailure ⟨strBytes ("boom"), some (strBytes ("<h1>oops</h1>"))⟩)
        ⟨[], []⟩ ⟨demoSecret ++ demoFrame, []⟩).clientWrites =
      strBytes ("HTTP/1.1 500 Internal Server Error\r\nStatus: 500 Internal Server Error\r\nConnection: close\r\nContent-Type: text/html; charset=utf-8\r\nContent-Length: ")
        ++ strBytes (toString ((some (strBytes ("<h1>oops</h1>"))).getD
            (strBytes ("boom"))).length)
        ++ strBytes ("\r\n\r\n")
        ++ (some (strBytes ("<h1>oops</h1>"))).getD (strBytes ("boom")) ∧
      (handleRequest demoSecret
        (.spawnFailure ⟨strBytes ("boom"), some (strBytes ("<h1>oops</h1>"))⟩)
        ⟨[], []⟩ ⟨demoSecret ++ demoFrame, []⟩).retVal = false :=
  ⟨⟨by decide, by decide⟩,
    spawnFailure_yields_500_template demoSecret ⟨[], []⟩ ⟨demoSecret ++ demoFrame, []⟩
      ⟨strBytes ("boom"), some (strBytes ("<h1>oops</h1>"))⟩ (by decide) (by decide)⟩

/-- C5: for a connection that passes authentication, the parse stage
succeeds exactly when the frame parser ends in state `DONE` and the
frame carries `DOCUMENT_ROOT` (so `ERROR`, any other non-`DONE`
state, or a missing `DOCUMENT_ROOT` rejects the request); on failure
the handler completes (`retVal = true`) without the pool's checkout;
on success the partial body is the untouched tail of the bytes read
while parsing — the bytes read from the connection minus those the
parser consumed. -/
theorem parse_gate_and_partial_body (secret : List Nat) (pool : PoolBehavior)
    (session c : Conn)
    (hauth : (handleRequest secret pool session c).authOk = true) :
    ((handleRequest secret pool session c).parseOk =
      (decide ((readAndParseRequestHeaders
          (readAndCheckPassword secret c).2).2.2.parser.state = .DONE) &&
        (readAndParseRequestHeaders
          (readAndCheckPassword secret c).2).2.2.parser.hasHeader docRootKey)) ∧
    ((handleRequest secret pool session c).parseOk = false →
      (handleRequest secret pool session c).checkoutCalled = false ∧
      (handleRequest secret pool session c).retVal = true) ∧
    ((handleRequest secret pool session c).parseOk = true →
      (handleRequest secret pool session c).partialBody =
        (handleRequest secret pool session c).parseReadBytes.drop
          (handleRequest secret pool session c).parserConsumed) := by
  have hra : (readAndCheckPassword secret c).1 = true := by
    rw [handleRequest_authOk] at hauth
    exact hauth
  have hpok := handleRequest_parseOk secret pool session c
  rw [hra, Bool.true_and] at hpok
  refine ⟨hpok.trans (readAndParse_fst_eq _), ?_, ?_⟩
  · intro hfalse
    have hprf := hpok.symm.trans hfalse
    constructor
    · have hcc := handleRequest_checkoutCalled secret pool session c
      rw [hra, Bool.true_and] at hcc
      exact hcc.trans hprf
    · have hrv := handleRequest_retVal secret pool session c
      rw [hra, Bool.true_and] at hrv
      exact hrv.trans ((congrArg (fun b => !b) hprf).trans Bool.not_false)
  · intro htrue
    have hpr := hpok.symm.trans htrue
    rw [handleRequest_partialBody secret pool session c hra hpr,
      handleRequest_parseReadBytes secret pool session c hra hpr,
      handleRequest_parserConsumed secret pool session c hra hpr]
    exact readAndParse_partial_body _ hpr

/-- C5 witness: a concrete authenticated connection with a valid
frame whose trailing bytes form the partial body. -/
theorem parse_gate_and_partial_body_witness :
    (handleRequest demoSecret .session ⟨[], []⟩
        ⟨demoSecret ++ demoFrame ++ [66, 67], List.replicate 9 99⟩).authOk = true ∧
      ((handleRequest demoSecret .session ⟨[], []⟩
          ⟨demoSecret ++ demoFrame ++ [66, 67], List.replicate 9 99⟩).parseOk =
        (decide ((readAndParseRequestHeaders
            (readAndCheckPassword demoSecret
              ⟨demoSecret ++ demoFrame ++ [66, 67], List.replicate 9 99⟩).2).2.2.parser.state
              = .DONE) &&
          (readAndParseRequestHeaders
            (readAndCheckPassword demoSecret
              ⟨demoSecret ++ demoFrame ++ [66, 67],
                List.replicate 9 99⟩).2).2.2.parser.hasHeader docRootKey) ∧
      ((handleRequest demoSecret .session ⟨[], []⟩
          ⟨demoSecret ++ demoFrame ++ [66, 67], List.replicate 9 99⟩).parseOk = false →
        (handleRequest demoSecret .session ⟨[], []⟩
          ⟨demoSecret ++ demoFrame ++ [66, 67], List.replicate 9 99⟩).checkoutCalled = false ∧
        (handleRequest demoSecret .session ⟨[], []⟩
          ⟨demoSecret ++ demoFrame ++ [66, 67], List.replicate 9 99⟩).retVal = true) ∧
      ((handleRequest demoSecret .session ⟨[], []⟩
          ⟨demoSecret ++ demoFrame ++ [66, 67], List.replicate 9 99⟩).parseOk = true →
        (handleRequest demoSecret .session ⟨[], []⟩
          ⟨demoSecret ++ demoFrame ++ [66, 67], List.replicate 9 99⟩).partialBody =
          (handleRequest demoSecret .session ⟨[], []⟩
            ⟨demoSecret ++ demoFrame ++ [66, 67], List.replicate 9 99⟩).parseReadBytes.drop
            (handleRequest demoSecret .session ⟨[], []⟩
              ⟨demoSecret ++ demoFrame ++ [66, 67], List.replicate 9 99⟩).parserConsumed)) :=
  ⟨by decide,
    parse_gate_and_partial_body demoSecret .session ⟨[], []⟩
      ⟨demoSecret ++ demoFrame ++ [66, 67], List.replicate 9 99⟩ (by decide)⟩

/-- C7: the process exits 0 exactly when startup succeeds and the
admin pipe then signals shutdown (`Server::start` returns after its
1-byte read, on a byte or on EOF alike); any startup failure (temp
dir, socket, bind or listen) exits 1; in particular a short read of
the 64-byte shared secret from the admin pipe is fatal with exit
code 1. -/
theorem mainExitCode_spec (adminPipe : Conn) (env : StartupEnv) :
    (mainExitCode adminPipe env = 0 ↔
      PASSWORD_SIZE ≤ adminPipe.bytes.length ∧ env.tempDirOk = true ∧
        env.listenEnv.socketFd.isSome = true ∧ env.listenEnv.bindOk = true ∧
        env.listenEnv.listenOk = true) ∧
    (adminPipe.bytes.length < PASSWORD_SIZE → mainExitCode adminPipe env = 1) := by
  obtain ⟨td, tok, sfd, bok, lok, cok⟩ := env
  rcases hr : readRaw PASSWORD_SIZE adminPipe with _ | ⟨pw, rest⟩
  · have hlen := (readRaw_none_iff PASSWORD_SIZE adminPipe).mp hr
    have hm : mainExitCode adminPipe ⟨td, tok, ⟨sfd, bok, lok, cok⟩⟩ = 1 := by
      unfold mainExitCode receivePassword
      rw [hr]
    rw [hm]
    exact ⟨⟨fun h => absurd h (by decide), fun hc => absurd hc.1 (by omega)⟩, fun _ => rfl⟩
  · have hlen : PASSWORD_SIZE ≤ adminPipe.bytes.length := by
      by_contra hl
      push_neg at hl
      rw [(readRaw_none_iff PASSWORD_SIZE adminPipe).mpr hl] at hr
      cases hr
    simp only [mainExitCode, receivePassword, hr]
    refine ⟨?_, fun hlt => absurd hlt (by omega)⟩
    cases tok <;> rcases sfd with _ | fd <;> cases bok <;> cases lok <;>
      simp [startListening, hlen]

/-- C7 witness: a full 64-byte secret with a healthy environment
exits 0; a 3-byte admin pipe exits 1. -/
theorem mainExitCode_spec_witness :
    (mainExitCode ⟨List.replicate 64 7, []⟩ ⟨"/t", true, ⟨some 3, true, true, true⟩⟩ = 0 ↔
      PASSWORD_SIZE ≤ (List.replicate 64 7 : List Nat).length ∧ true = true ∧
        (some 3 : Option Nat).isSome = true ∧ true = true ∧ true = true) ∧
      (([1, 2, 3] : List Nat).length < PASSWORD_SIZE ∧
        mainExitCode ⟨[1, 2, 3], []⟩ ⟨"/t", true, ⟨some 3, true, true, true⟩⟩ = 1) :=
  ⟨(mainExitCode_spec ⟨List.replicate 64 7, []⟩ ⟨"/t", true, ⟨some 3, true, true, true⟩⟩).1,
    by decide,
    (mainExitCode_spec ⟨[1, 2, 3], []⟩ ⟨"/t", true, ⟨some 3, true, true, true⟩⟩).2 (by decide)⟩

/-- C8 counterexample: with `socket`, `bind` and `listen` succeeding
but `chmod` failing, `Server::startListening` still returns normally
(the C++ discards chmod's return value), so a failure at the
socket-creation stage does not always abort startup. -/
theorem startListening_ignores_chmod_failure :
    startListening ("/tmp") ⟨some 3, true, true, false⟩ =
      .ok ⟨("/tmp") ++ "/helper_server.sock", BACKLOG_SIZE, SOCKET_MODE, false⟩ :=
  rfl

/-- C8 amended: the broker binds a Unix stream socket at
`<tempdir>/helper_server.sock`, listens with backlog 50 and chmods
the socket file to `0777` plus the sticky bit (octal `1777`); a
failure of `socket`, `bind` or `listen` aborts startup, while a
`chmod` failure is ignored (startup succeeds regardless of
`chmodOk`). -/
theorem startListening_amended (tempDir : String) (env : ListenEnv) :
    ((∃ r, startListening tempDir env = .ok r) ↔
      env.socketFd.isSome = true ∧ env.bindOk = true ∧ env.listenOk = true) ∧
    ∀ r, startListening tempDir env = .ok r →
      r.path = tempDir ++ "/helper_server.sock" ∧ r.backlog = 50 ∧
        r.chmodMode = 0o1777 ∧ r.chmodSucceeded = env.chmodOk := by
  obtain ⟨sfd, bok, lok, cok⟩ := env
  rcases sfd with _ | fd <;> cases bok <;> cases lok <;>
    simp [startListening, BACKLOG_SIZE, SOCKET_MODE]

/-- C8 amended witness: a concrete all-successful environment. -/
theorem startListening_amended_witness :
    ((∃ r, startListening ("/s") ⟨some 4, true, true, true⟩ = .ok r) ↔
      (some 4 : Option Nat).isSome = true ∧ true = true ∧ true = true) ∧
      ∀ r, startListening ("/s") ⟨some 4, true, true, true⟩ = .ok r →
        r.path = ("/s") ++ "/helper_server.sock" ∧ r.backlog = 50 ∧
          r.chmodMode = 0o1777 ∧ r.chmodSucceeded = true :=
  startListening_amended ("/s") ⟨some 4, true, true, true⟩

/-- C9: the broker spawns exactly `4 × max_pool_size` client-handler
threads (in `unsigned int` arithmetic, which is exact whenever
`4 × max_pool_size < 2^32`), the invariant
`numberOfThreads = 4 × pool.max_size` holds for the constructed
server, and every client shares the same password, listening socket
and application pool. -/
theorem server_worker_count (password : List Nat)
    (adminPipe serverSocket poolId maxPoolSize : Nat)
    (h : maxPoolSize * 4 < U32) :
    (startClientHandlerThreads (mkServer password adminPipe serverSocket poolId
        maxPoolSize)).clients.length = 4 * maxPoolSize ∧
    (mkServer password adminPipe serverSocket poolId maxPoolSize).numberOfThreads =
      4 * (mkServer password adminPipe serverSocket poolId maxPoolSize).poolMaxSize ∧
    ∀ cl ∈ (startClientHandlerThreads (mkServer password adminPipe serverSocket poolId
        maxPoolSize)).clients,
      cl.password = password ∧ cl.serverSocket = serverSocket ∧ cl.poolId = poolId := by
  have hmp : maxPoolSize < U32 := by
    unfold U32 at *
    omega
  have h1 : maxPoolSize % U32 = maxPoolSize := Nat.mod_eq_of_lt hmp
  have h2 : maxPoolSize * 4 % U32 = maxPoolSize * 4 := Nat.mod_eq_of_lt h
  refine ⟨?_, ?_, ?_⟩
  · simp only [startClientHandlerThreads, mkServer, List.length_map, List.length_range]
    rw [h1, h2]
    omega
  · simp only [mkServer]
    rw [h1, h2]
    omega
  · intro cl hcl
    simp only [startClientHandlerThreads, mkServer, List.mem_map] at hcl
    obtain ⟨i, _, rfl⟩ := hcl
    exact ⟨rfl, rfl, rfl⟩

/-- C9 witness: `max_pool_size = 6` yields 24 client handlers. -/
theorem server_worker_count_witness :
    6 * 4 < U32 ∧
      ((startClientHandlerThreads (mkServer [1] 5 9 2 6)).clients.length = 4 * 6 ∧
        (mkServer [1] 5 9 2 6).numberOfThreads = 4 * (mkServer [1] 5 9 2 6).poolMaxSize ∧
        ∀ cl ∈ (startClientHandlerThreads (mkServer [1] 5 9 2 6)).clients,
          cl.password = [1] ∧ cl.serverSocket = 9 ∧ cl.poolId = 2) :=
  ⟨by decide, server_worker_count [1] 5 9 2 6 (by decide)⟩

end HelperServer
